import Mathlib

/-!
# Fincerta: shallow embedding of the loan/collections tracker

This file embeds, in Lean, the client-side domain logic of the Fincerta
repository (loan arithmetic, loan creation, payment registration, the
payment-deduplication aggregations, the duplicate-payment cleanup routine,
the activity logger and the CPF formatter) and proves properties of the
embedded code.

Modelling conventions:
* JavaScript numbers holding money are modelled as rationals (ℚ): the
  formulas in the source are plain field arithmetic.
* Calendar dates (ISO date strings in the source) are modelled as integers
  counting days, so that adding a week is adding 7.
* Remote tables touched by a handler are collected into an explicit state
  record; every remote call becomes a state update, and a call that can
  fail takes a Boolean flag telling whether it succeeds, mirroring the
  sequential await/throw structure of the source.
-/

namespace Fincerta

/-! ## CPF formatter (src/unnamed/part_000, formatCPF) -/

/-- The digit filter: the source removes every non-digit with
`value.replace(/\D/g, "")`. -/
def filterDigits (s : List Char) : List Char :=
  s.filter Char.isDigit

/-- The mask application of formatCPF, operating on the digit list `cpf`.
Each branch mirrors one branch of the source: JS `slice(a, b)` is
`(drop a).take (b - a)` and `slice(a)` is `drop a`. -/
def fmtCPF (cpf : List Char) : List Char :=
  if cpf.length ≤ 3 then cpf
  else if cpf.length ≤ 6 then cpf.take 3 ++ [Char.ofNat 46] ++ cpf.drop 3
  else if cpf.length ≤ 9 then
    cpf.take 3 ++ [Char.ofNat 46] ++ (cpf.drop 3).take 3 ++ [Char.ofNat 46] ++ cpf.drop 6
  else
    cpf.take 3 ++ [Char.ofNat 46] ++ (cpf.drop 3).take 3 ++ [Char.ofNat 46] ++
      (cpf.drop 6).take 3 ++ [Char.ofNat 45] ++ (cpf.drop 9).take 2

/-- formatCPF from src/unnamed/part_000: strip non-digits, then apply the
000.000.000-00 mask. -/
def formatCPF (value : String) : String :=
  String.mk (fmtCPF (filterDigits value.toList))

/-! ## Loan arithmetic (src/unnamed/part_002, LoanForm.calculateLoanDetails) -/

structure LoanDetails where
  loanAmount : ℚ
  interestRate : ℚ
  totalAmount : ℚ
  weeklyPayment : ℚ
  weeks : ℕ
deriving DecidableEq

/-- LoanForm.calculateLoanDetails: fixed 35% flat interest, equal weekly
payments. -/
def calculateLoanDetails (amount : ℚ) (weeks : ℕ) : LoanDetails :=
  let interestRate : ℚ := 35
  let totalAmount : ℚ := amount * (1 + interestRate / 100)
  let weeklyPayment : ℚ := totalAmount / weeks
  { loanAmount := amount
    interestRate := interestRate
    totalAmount := totalAmount
    weeklyPayment := weeklyPayment
    weeks := weeks }

/-- One entry of the simulator payment schedule: week index (1-based),
payment date, amount. -/
structure ScheduleEntry where
  week : ℕ
  date : ℤ
  amount : ℚ
deriving DecidableEq

structure SimLoanDetails where
  loanAmount : ℚ
  interestRate : ℚ
  totalAmount : ℚ
  jurosValor : ℚ
  weeklyPayment : ℚ
  weeks : ℕ
  paymentSchedule : List ScheduleEntry
deriving DecidableEq

/-- LoanSimulator.calculateLoanDetails (src/unnamed/part_004): reverse
calculation from the chosen total; the schedule dates step by 7 days from
the first payment date. -/
def simCalculateLoanDetails (loanAmount totalAmount : ℚ) (totalWeeks : ℕ)
    (firstPayment : ℤ) : SimLoanDetails :=
  let jurosValor : ℚ := totalAmount - loanAmount
  let interestRate : ℚ := if 0 < loanAmount then jurosValor / loanAmount * 100 else 0
  let weeklyPayment : ℚ := totalAmount / totalWeeks
  { loanAmount := loanAmount
    interestRate := interestRate
    totalAmount := totalAmount
    jurosValor := jurosValor
    weeklyPayment := weeklyPayment
    weeks := totalWeeks
    paymentSchedule :=
      (List.range totalWeeks).map fun i =>
        { week := i + 1, date := firstPayment + 7 * (i : ℤ), amount := weeklyPayment } }

/-! ## Loan creation (src/unnamed/part_002 LoanForm.handleSubmit and
src/unnamed/part_004 LoanSimulator.handleLoanCreation) -/

/-- The record inserted into the loans table by loan creation. -/
structure LoanInsert where
  client_id : ℕ
  loan_amount : ℚ
  interest_rate : ℚ
  total_amount : ℚ
  weekly_payment : ℚ
  total_weeks : ℕ
  weeks_paid : ℕ
  loan_date : ℤ
  due_date : ℤ
  next_payment_date : Option ℤ
  status : String
deriving DecidableEq

/-- The client fields the loan form reads and writes. -/
structure FormClient where
  id : ℕ
  credit_limit : ℚ
  available_credit : ℚ
  is_first_loan : Bool
deriving DecidableEq

/-- State touched by loan creation: the loans table and the selected
client row. -/
structure FormState where
  loans : List LoanInsert
  client : FormClient
deriving DecidableEq

/-- LoanForm.handleSubmit: reject when the amount exceeds the available
credit (nothing written), otherwise insert the loan row and decrease the
client credit. Returns the new state and whether a loan was created. -/
def handleSubmit (st : FormState) (amount : ℚ) (weeks : ℕ) (today : ℤ) :
    FormState × Bool :=
  let d := calculateLoanDetails amount weeks
  if d.loanAmount > st.client.available_credit then (st, false)
  else
    let row : LoanInsert :=
      { client_id := st.client.id
        loan_amount := d.loanAmount
        interest_rate := d.interestRate
        total_amount := d.totalAmount
        weekly_payment := d.weeklyPayment
        total_weeks := d.weeks
        weeks_paid := 0
        loan_date := today
        due_date := today + 7 * (weeks : ℤ)
        next_payment_date := some (today + 7)
        status := "active" }
    ({ loans := st.loans ++ [row]
       client :=
         { st.client with
           available_credit := st.client.available_credit - d.loanAmount
           is_first_loan := false } }, true)

/-- LoanSimulator.handleLoanCreation (src/unnamed/part_004): same guard
against the available credit; the inserted row takes the simulator
amounts, status pending, next payment on the chosen first payment date. -/
def simHandleLoanCreation (st : FormState) (loanAmount totalAmount : ℚ)
    (totalWeeks : ℕ) (firstPaymentDate today : ℤ) : FormState × Bool :=
  let d := simCalculateLoanDetails loanAmount totalAmount totalWeeks firstPaymentDate
  if d.loanAmount > st.client.available_credit then (st, false)
  else
    let row : LoanInsert :=
      { client_id := st.client.id
        loan_amount := d.loanAmount
        interest_rate := d.interestRate
        total_amount := d.totalAmount
        weekly_payment := d.weeklyPayment
        total_weeks := d.weeks
        weeks_paid := 0
        loan_date := today
        due_date := firstPaymentDate + 7 * ((totalWeeks : ℤ) - 1)
        next_payment_date := some firstPaymentDate
        status := "pending" }
    ({ loans := st.loans ++ [row]
       client :=
         { st.client with
           available_credit := st.client.available_credit - d.loanAmount
           is_first_loan := false } }, true)

/-! ## Payment registration
(src/src/components/LoanDetails.tsx handleRegisterPayment,
src/unnamed/part_003 LoanList.markPayment,
src/src/components/LoanPayments.tsx registerPayment) -/

/-- The loans-table columns the payment handlers read and write. -/
structure LoanRow where
  id : ℕ
  loan_amount : ℚ
  weekly_payment : ℚ
  total_weeks : ℕ
  weeks_paid : ℕ
  next_payment_date : Option ℤ
  status : String
deriving DecidableEq

/-- The record a payment handler inserts into loan_payments. -/
structure NewPayment where
  loan_id : ℕ
  payment_amount : ℚ
  payment_date : ℤ
  week_number : ℕ
deriving DecidableEq

/-- The client columns touched when a loan is completed. -/
structure ClientRow where
  available_credit : ℚ
  credit_limit : ℚ
deriving DecidableEq

/-- The remote state a payment handler touches: the loan row being paid,
the loan_payments table, and the loan client. -/
structure PayDB where
  loan : LoanRow
  loan_payments : List NewPayment
  client : ClientRow
deriving DecidableEq

/-- LoanDetails.handleRegisterPayment: first remote call inserts the
payment, second updates the loan row (next payment a week from today,
not from the previous date), and on completion the client credit is
restored capped at the credit limit. `insertOk`, `updateOk` and
`clientOk` tell whether each remote call succeeds; a failing call throws,
so later calls do not run, and the Boolean result reports success
(client-update errors are only logged in the source, not thrown). -/
def handleRegisterPayment (db : PayDB) (today : ℤ)
    (insertOk updateOk clientOk : Bool) : PayDB × Bool :=
  let loan := db.loan
  let newWeeksPaid := loan.weeks_paid + 1
  let isCompleted : Bool := decide (loan.total_weeks ≤ newWeeksPaid)
  if insertOk = false then (db, false)
  else
    let db1 : PayDB :=
      { db with
        loan_payments := db.loan_payments ++
          [{ loan_id := loan.id
             payment_amount := loan.weekly_payment
             payment_date := today
             week_number := newWeeksPaid }] }
    if updateOk = false then (db1, false)
    else
      let nextPaymentDate : Option ℤ := if isCompleted then none else some (today + 7)
      let db2 : PayDB :=
        { db1 with
          loan :=
            { loan with
              weeks_paid := newWeeksPaid
              status := if isCompleted then "completed" else "active"
              next_payment_date := nextPaymentDate } }
      let db3 : PayDB :=
        if isCompleted then
          if clientOk then
            { db2 with
              client :=
                { db2.client with
                  available_credit :=
                    min (db2.client.available_credit + loan.loan_amount)
                      db2.client.credit_limit } }
          else db2
        else db2
      (db3, true)

/-- LoanList.markPayment (src/unnamed/part_003): identical to
handleRegisterPayment except that the restored credit is not capped at
the credit limit. -/
def markPayment (db : PayDB) (today : ℤ)
    (insertOk updateOk clientOk : Bool) : PayDB × Bool :=
  let loan := db.loan
  let newWeeksPaid := loan.weeks_paid + 1
  let isCompleted : Bool := decide (loan.total_weeks ≤ newWeeksPaid)
  if insertOk = false then (db, false)
  else
    let db1 : PayDB :=
      { db with
        loan_payments := db.loan_payments ++
          [{ loan_id := loan.id
             payment_amount := loan.weekly_payment
             payment_date := today
             week_number := newWeeksPaid }] }
    if updateOk = false then (db1, false)
    else
      let nextPaymentDate : Option ℤ := if isCompleted then none else some (today + 7)
      let db2 : PayDB :=
        { db1 with
          loan :=
            { loan with
              weeks_paid := newWeeksPaid
              status := if isCompleted then "completed" else "active"
              next_payment_date := nextPaymentDate } }
      let db3 : PayDB :=
        if isCompleted then
          if clientOk then
            { db2 with
              client :=
                { db2.client with
                  available_credit := db2.client.available_credit + loan.loan_amount } }
          else db2
        else db2
      (db3, true)

/-- LoanPayments.registerPayment: reverse order of the other handlers —
the first remote call UPDATES the loans row (next payment one week after
the previous next_payment_date), the second INSERTS the payment row; on
completion the credit is restored uncapped. JS new Date(null) is the
epoch, hence the getD 0 default on the previous date. -/
def registerPayment (db : PayDB) (today : ℤ)
    (updateOk insertOk clientOk : Bool) : PayDB × Bool :=
  let loan := db.loan
  let newWeeksPaid := loan.weeks_paid + 1
  let isCompleted : Bool := decide (loan.total_weeks ≤ newWeeksPaid)
  let nextPaymentDate : Option ℤ :=
    if isCompleted then none else some (loan.next_payment_date.getD 0 + 7)
  if updateOk = false then (db, false)
  else
    let db1 : PayDB :=
      { db with
        loan :=
          { loan with
            weeks_paid := newWeeksPaid
            status := if isCompleted then "completed" else "pending"
            next_payment_date := nextPaymentDate } }
    if insertOk = false then (db1, false)
    else
      let db2 : PayDB :=
        { db1 with
          loan_payments := db1.loan_payments ++
            [{ loan_id := loan.id
               payment_amount := loan.weekly_payment
               payment_date := today
               week_number := newWeeksPaid }] }
      let db3 : PayDB :=
        if isCompleted then
          if clientOk then
            { db2 with
              client :=
                { db2.client with
                  available_credit := db2.client.available_credit + loan.loan_amount } }
          else db2
        else db2
      (db3, true)

/-! ## Payment deduplication by week number
(src/src/components/LoanDetails.tsx, CashFlow.loadCashFlowData and
Reports.loadMonthlyReports; src/src/components/LoanList.tsx fetchLoans) -/

/-- A loan_payments row as loaded by the cash-flow screen
(id, payment_amount, payment_date, week_number). -/
structure CashPayment where
  id : ℕ
  payment_amount : ℚ
  payment_date : ℤ
  week_number : ℕ
deriving DecidableEq

/-- The Map key of the dedup loop: the source uses
`payment.week_number || fallback string`, where the fallback (used when
week_number is falsy, i.e. 0 or null) is built from the payment date and
id. -/
inductive WeekKey where
  | week : ℕ → WeekKey
  | fallback : ℤ → ℕ → WeekKey
deriving DecidableEq

def weekKey (p : CashPayment) : WeekKey :=
  if p.week_number = 0 then WeekKey.fallback p.payment_date p.id
  else WeekKey.week p.week_number

/-- JS Map.get on an insertion-ordered association list. -/
def mapGet : List (WeekKey × CashPayment) → WeekKey → Option CashPayment
  | [], _ => none
  | (k0, q) :: rest, k => if k0 = k then some q else mapGet rest k

/-- JS Map.set: replace in place when the key exists, append otherwise. -/
def mapSet : List (WeekKey × CashPayment) → WeekKey → CashPayment →
    List (WeekKey × CashPayment)
  | [], k, p => [(k, p)]
  | (k0, q) :: rest, k, p =>
    if k0 = k then (k0, p) :: rest else (k0, q) :: mapSet rest k p

/-- One step of the dedup loop: keep the stored payment unless the new
one has a strictly earlier payment_date (mirrors
`if (!map.has(key) || new < stored) map.set(key, payment)`). -/
def upsertPayment (m : List (WeekKey × CashPayment)) (p : CashPayment) :
    List (WeekKey × CashPayment) :=
  match mapGet m (weekKey p) with
  | none => mapSet m (weekKey p) p
  | some q => if p.payment_date < q.payment_date then mapSet m (weekKey p) p else m

/-- The uniquePayments Map built by the dedup loop over the payment
list of a loan, in list order. -/
def uniquePayments (ps : List CashPayment) : List (WeekKey × CashPayment) :=
  ps.foldl upsertPayment []

/-- totalPaid of a loan: sum of the amounts of the deduplicated
payments. -/
def totalPaid (ps : List CashPayment) : ℚ :=
  ((uniquePayments ps).map fun e => e.2.payment_amount).sum

/-- actualWeeksPaid in LoanList.fetchLoans / syncLoanStatus: the size of
the Set of week numbers. -/
def actualWeeksPaid (ps : List CashPayment) : ℕ :=
  (ps.map fun p => p.week_number).toFinset.card

/-- The recomputed status of LoanList.fetchLoans: completed when the
unique-week count reaches total_weeks, pending otherwise. -/
def loanRealStatus (total_weeks : ℕ) (ps : List CashPayment) : String :=
  if total_weeks ≤ actualWeeksPaid ps then "completed" else "pending"

/-- A loan with its payments, as aggregated by loadCashFlowData. -/
structure CashLoan where
  total_amount : ℚ
  pays : List CashPayment
deriving DecidableEq

/-- Cash balance of loadCashFlowData: the sum over loans of the
deduplicated paid totals (cashBalance = totalReceivedAmount). -/
def cashBalance (ls : List CashLoan) : ℚ :=
  (ls.map fun l => totalPaid l.pays).sum

/-! ## Duplicate-payment cleanup
(src/src/components/LoanList.tsx, cleanupDuplicatePayments) -/

/-- A loan_payments row as loaded by the cleanup routine
(id, loan_id, week_number, payment_date), fetched in payment_date
ascending order. -/
structure CleanupPayment where
  id : ℕ
  loan_id : ℕ
  week_number : ℕ
  payment_date : ℤ
deriving DecidableEq

/-- The grouping key of the cleanup loop. The source key is the string
loan_id ++ "_" ++ week_number; week numbers are plain numerals, so the
string determines the pair and is modelled by the pair itself. -/
def cleanupKey (p : CleanupPayment) : ℕ × ℕ :=
  (p.loan_id, p.week_number)

/-- The payments retained by cleanupDuplicatePayments: the source groups
the (date-ascending) list by key in insertion order and deletes every
group member except the first, so the first occurrence of each key is
kept. -/
def cleanupDuplicatePayments : List CleanupPayment → List CleanupPayment
  | [] => []
  | p :: ps =>
    p :: cleanupDuplicatePayments (ps.filter fun q => decide (cleanupKey q ≠ cleanupKey p))
termination_by l => l.length
decreasing_by
  simp only [List.length_cons]
  exact Nat.lt_succ_of_le (List.length_filter_le _ _)

/-! ## Activity logger (src/src/utils/activityLogger.ts) -/

/-- The log entry type tags of ActivityLog. -/
inductive LogType where
  | create | update | delete | payment | login | system
deriving DecidableEq

structure ActivityLog where
  id : String
  timestamp : ℤ
  user : String
  action : String
  entity : String
  entityId : Option String
  details : String
  type : LogType
deriving DecidableEq

/-- The in-memory state of the ActivityLogger class. -/
structure LoggerState where
  logs : List ActivityLog
  currentUser : String
deriving DecidableEq

/-- ActivityLogger.log: build the entry (id and timestamp are produced
by Date.now and Math.random in the source and are taken as inputs here),
unshift it onto the list, and truncate to the newest 1000 entries when
the list exceeds 1000. Returns the new state and the entry. -/
def ActivityLogger.log (st : LoggerState) (id : String) (timestamp : ℤ)
    (action entity : String) (entityId : Option String)
    (details : Option String) (type : LogType) : LoggerState × ActivityLog :=
  let logEntry : ActivityLog :=
    { id := id
      timestamp := timestamp
      user := st.currentUser
      action := action
      entity := entity
      entityId := entityId
      details := details.getD (action ++ " realizada em " ++ entity)
      type := type }
  let logs1 := logEntry :: st.logs
  let logs2 := if logs1.length > 1000 then logs1.take 1000 else logs1
  ({ st with logs := logs2 }, logEntry)

/-! ## Theorems -/

/-- C1: for every loan created through the loan form, the stored
total_amount equals loan_amount times (1 + interest_rate / 100), with
interest_rate fixed at 35. -/
theorem claim_C1 (st : FormState) (amount : ℚ) (weeks : ℕ) (today : ℤ)
    (h : amount ≤ st.client.available_credit) :
    ∃ r : LoanInsert,
      (handleSubmit st amount weeks today).1.loans = st.loans ++ [r] ∧
      r.interest_rate = 35 ∧
      r.loan_amount = amount ∧
      r.total_amount = r.loan_amount * (1 + r.interest_rate / 100) := by
  have hg : ¬ amount > st.client.available_credit := not_lt.mpr h
  refine ⟨{ client_id := st.client.id, loan_amount := amount, interest_rate := 35,
            total_amount := amount * (1 + 35 / 100),
            weekly_payment := amount * (1 + 35 / 100) / weeks,
            total_weeks := weeks, weeks_paid := 0, loan_date := today,
            due_date := today + 7 * (weeks : ℤ),
            next_payment_date := some (today + 7),
            status := "active" }, ?_, rfl, rfl, rfl⟩
  simp [handleSubmit, calculateLoanDetails, hg]

/-- C1 witness: a concrete successful submission. -/
theorem claim_C1_witness :
    ∃ r : LoanInsert,
      (handleSubmit ⟨[], ⟨7, 1000, 500, true⟩⟩ 200 4 0).1.loans = [] ++ [r] ∧
      r.interest_rate = 35 ∧
      r.loan_amount = 200 ∧
      r.total_amount = r.loan_amount * (1 + r.interest_rate / 100) :=
  claim_C1 ⟨[], ⟨7, 1000, 500, true⟩⟩ 200 4 0 (by norm_num)

/-- C2: in both the loan form and the simulator the weekly installment is
total_amount divided by total_weeks; the simulator schedule has
total_weeks equal installments whose sum is exactly total_amount, and
the form total equals weeks times the weekly installment. -/
theorem claim_C2 (amount totalAmount : ℚ) (weeks : ℕ) (firstPayment : ℤ)
    (h : 0 < weeks) :
    (calculateLoanDetails amount weeks).weeklyPayment
        = (calculateLoanDetails amount weeks).totalAmount / weeks ∧
    (weeks : ℚ) * (calculateLoanDetails amount weeks).weeklyPayment
        = (calculateLoanDetails amount weeks).totalAmount ∧
    (simCalculateLoanDetails amount totalAmount weeks firstPayment).weeklyPayment
        = totalAmount / weeks ∧
    (simCalculateLoanDetails amount totalAmount weeks firstPayment).paymentSchedule.length
        = weeks ∧
    (∀ e ∈ (simCalculateLoanDetails amount totalAmount weeks firstPayment).paymentSchedule,
        e.amount
          = (simCalculateLoanDetails amount totalAmount weeks firstPayment).weeklyPayment) ∧
    ((simCalculateLoanDetails amount totalAmount weeks firstPayment).paymentSchedule.map
        fun e => e.amount).sum = totalAmount := by
  have hw : (weeks : ℚ) ≠ 0 := Nat.cast_ne_zero.mpr h.ne'
  refine ⟨rfl, ?_, rfl, ?_, ?_, ?_⟩
  · show (weeks : ℚ) * (amount * (1 + 35 / 100) / weeks) = amount * (1 + 35 / 100)
    rw [mul_comm, div_mul_cancel₀ _ hw]
  · simp [simCalculateLoanDetails]
  · intro e he
    simp only [simCalculateLoanDetails, List.mem_map, List.mem_range] at he
    obtain ⟨i, _, rfl⟩ := he
    rfl
  · have hmap : ((simCalculateLoanDetails amount totalAmount weeks
        firstPayment).paymentSchedule.map fun e => e.amount)
        = List.replicate weeks (totalAmount / weeks) := by
      simp only [simCalculateLoanDetails, List.map_map]
      rw [show ((fun e : ScheduleEntry => e.amount) ∘ fun i : ℕ =>
          ({ week := i + 1, date := firstPayment + 7 * (i : ℤ),
             amount := totalAmount / weeks } : ScheduleEntry))
          = fun _ : ℕ => totalAmount / weeks from rfl]
      rw [List.map_const', List.length_range]
    rw [hmap, List.sum_replicate, nsmul_eq_mul, mul_comm, div_mul_cancel₀ _ hw]

/-- C2 witness: concrete four-week loan. -/
theorem claim_C2_witness :
    (calculateLoanDetails 500 4).weeklyPayment
        = (calculateLoanDetails 500 4).totalAmount / 4 ∧
    ((4 : ℕ) : ℚ) * (calculateLoanDetails 500 4).weeklyPayment
        = (calculateLoanDetails 500 4).totalAmount ∧
    (simCalculateLoanDetails 500 675 4 10).weeklyPayment = 675 / 4 ∧
    (simCalculateLoanDetails 500 675 4 10).paymentSchedule.length = 4 ∧
    (∀ e ∈ (simCalculateLoanDetails 500 675 4 10).paymentSchedule,
        e.amount = (simCalculateLoanDetails 500 675 4 10).weeklyPayment) ∧
    ((simCalculateLoanDetails 500 675 4 10).paymentSchedule.map
        fun e => e.amount).sum = 675 :=
  claim_C2 500 675 4 10 (by norm_num)

/-- C5: loan creation rejects a request exceeding the available credit
and then changes nothing; otherwise it decreases available_credit by
exactly the amount, which never drives it negative. Both the loan form
and the simulator path behave this way. -/
theorem claim_C5 (st : FormState) (amount totalAmount : ℚ) (weeks : ℕ)
    (firstPaymentDate today : ℤ) :
    (amount > st.client.available_credit →
        handleSubmit st amount weeks today = (st, false) ∧
        simHandleLoanCreation st amount totalAmount weeks firstPaymentDate today
          = (st, false)) ∧
    (¬ amount > st.client.available_credit →
        (handleSubmit st amount weeks today).2 = true ∧
        (handleSubmit st amount weeks today).1.client.available_credit
            = st.client.available_credit - amount ∧
        0 ≤ (handleSubmit st amount weeks today).1.client.available_credit ∧
        (∃ r, (handleSubmit st amount weeks today).1.loans = st.loans ++ [r] ∧
            r.loan_amount = amount) ∧
        (simHandleLoanCreation st amount totalAmount weeks firstPaymentDate today).2
            = true ∧
        (simHandleLoanCreation st amount totalAmount weeks firstPaymentDate
            today).1.client.available_credit
            = st.client.available_credit - amount ∧
        0 ≤ (simHandleLoanCreation st amount totalAmount weeks firstPaymentDate
            today).1.client.available_credit ∧
        ∃ r, (simHandleLoanCreation st amount totalAmount weeks firstPaymentDate
            today).1.loans = st.loans ++ [r] ∧ r.loan_amount = amount) := by
  constructor
  · intro hc
    constructor
    · simp [handleSubmit, calculateLoanDetails, hc]
    · simp [simHandleLoanCreation, simCalculateLoanDetails, hc]
  · intro hc
    have hle : 0 ≤ st.client.available_credit - amount :=
      sub_nonneg.mpr (not_lt.mp hc)
    refine ⟨?_, ?_, ?_, ?_, ?_, ?_, ?_, ?_⟩ <;>
      simp [handleSubmit, simHandleLoanCreation, calculateLoanDetails,
        simCalculateLoanDetails, hc, hle]

/-- C5 witness: a rejected and an accepted concrete request. -/
theorem claim_C5_witness :
    (handleSubmit ⟨[], ⟨7, 1000, 500, true⟩⟩ 600 4 0 = (⟨[], ⟨7, 1000, 500, true⟩⟩, false)) ∧
    (handleSubmit ⟨[], ⟨7, 1000, 500, true⟩⟩ 200 4 0).1.client.available_credit = 500 - 200 ∧
    0 ≤ (handleSubmit ⟨[], ⟨7, 1000, 500, true⟩⟩ 200 4 0).1.client.available_credit := by
  refine ⟨?_, ?_, ?_⟩
  · exact ((claim_C5 ⟨[], ⟨7, 1000, 500, true⟩⟩ 600 810 4 7 0).1 (by norm_num)).1
  · exact ((claim_C5 ⟨[], ⟨7, 1000, 500, true⟩⟩ 200 270 4 7 0).2 (by norm_num)).2.1
  · exact ((claim_C5 ⟨[], ⟨7, 1000, 500, true⟩⟩ 200 270 4 7 0).2 (by norm_num)).2.2.1

/-- C8: when the client-detail screen registers the final payment, the
client credit is restored to min(previous + loan_amount, credit_limit),
hence never ends above the credit limit. -/
theorem claim_C8 (db : PayDB) (today : ℤ)
    (h : db.loan.total_weeks ≤ db.loan.weeks_paid + 1) :
    (handleRegisterPayment db today true true true).1.client.available_credit
        = min (db.client.available_credit + db.loan.loan_amount)
            db.client.credit_limit ∧
    (handleRegisterPayment db today true true true).1.client.available_credit
        ≤ db.client.credit_limit := by
  have hc : decide (db.loan.total_weeks ≤ db.loan.weeks_paid + 1) = true :=
    decide_eq_true h
  constructor
  · simp [handleRegisterPayment, hc]
  · simp only [handleRegisterPayment, hc]
    simp [min_le_right]

/-- C8 witness: a concrete final payment capped by the credit limit. -/
theorem claim_C8_witness :
    (handleRegisterPayment ⟨⟨1, 100, 25, 4, 3, some 20, "active"⟩, [], ⟨450, 500⟩⟩
        30 true true true).1.client.available_credit = min (450 + 100) 500 ∧
    (handleRegisterPayment ⟨⟨1, 100, 25, 4, 3, some 20, "active"⟩, [], ⟨450, 500⟩⟩
        30 true true true).1.client.available_credit ≤ 500 :=
  claim_C8 ⟨⟨1, 100, 25, 4, 3, some 20, "active"⟩, [], ⟨450, 500⟩⟩ 30 (by norm_num)

/-- C9: every ActivityLogger.log call leaves at most 1000 entries in the
in-memory list and puts the new entry at the front. -/
theorem claim_C9 (st : LoggerState) (eid : String) (ts : ℤ)
    (action entity : String) (entityId : Option String)
    (details : Option String) (type : LogType) :
    (ActivityLogger.log st eid ts action entity entityId details type).1.logs.length
        ≤ 1000 ∧
    (ActivityLogger.log st eid ts action entity entityId details type).1.logs.head?
        = some (ActivityLogger.log st eid ts action entity entityId details type).2 := by
  unfold ActivityLogger.log
  by_cases hl : 1000 < st.logs.length + 1
  · simp only [List.length_cons, hl, if_pos, gt_iff_lt]
    constructor
    · simp
    · rw [show (1000 : ℕ) = 999 + 1 from rfl, List.take_succ_cons]
      simp
  · simp only [List.length_cons, gt_iff_lt, hl, if_neg, if_false]
    constructor
    · simpa using Nat.le_of_lt_succ (Nat.lt_succ_of_le (not_lt.mp hl))
    · simp

/-- C3 counterexample: in LoanList.markPayment (likewise
LoanDetails.handleRegisterPayment) a non-final payment on a loan whose
previous next_payment_date is day 0, registered on day 10, stores day 17
(today + 7), not day 7 (previous + 7), refuting the claim that every
registration path advances next_payment_date by one week from its
previous value. -/
theorem claim_C3_counterexample :
    (markPayment ⟨⟨1, 100, 25, 4, 0, some 0, "active"⟩, [], ⟨0, 500⟩⟩
        10 true true true).1.loan.status = "active" ∧
    (markPayment ⟨⟨1, 100, 25, 4, 0, some 0, "active"⟩, [], ⟨0, 500⟩⟩
        10 true true true).1.loan.next_payment_date = some 17 ∧
    (markPayment ⟨⟨1, 100, 25, 4, 0, some 0, "active"⟩, [], ⟨0, 500⟩⟩
        10 true true true).1.loan.next_payment_date ≠ some (0 + 7) := by
  refine ⟨rfl, rfl, ?_⟩
  decide

/-- C3 (amended): when a registered payment completes the loan every
path stores next_payment_date = null; when it does not,
LoanPayments.registerPayment advances next_payment_date by 7 days from
its previous value, while LoanDetails.handleRegisterPayment and
LoanList.markPayment instead set it to 7 days after the registration
day. -/
theorem claim_C3 (db : PayDB) (today : ℤ) :
    (db.loan.total_weeks ≤ db.loan.weeks_paid + 1 →
        (handleRegisterPayment db today true true true).1.loan.next_payment_date
            = none ∧
        (markPayment db today true true true).1.loan.next_payment_date = none ∧
        (registerPayment db today true true true).1.loan.next_payment_date = none) ∧
    (¬ db.loan.total_weeks ≤ db.loan.weeks_paid + 1 →
        (handleRegisterPayment db today true true true).1.loan.next_payment_date
            = some (today + 7) ∧
        (markPayment db today true true true).1.loan.next_payment_date
            = some (today + 7) ∧
        ∀ d, db.loan.next_payment_date = some d →
          (registerPayment db today true true true).1.loan.next_payment_date
              = some (d + 7)) := by
  constructor
  · intro h
    have hc : decide (db.loan.total_weeks ≤ db.loan.weeks_paid + 1) = true :=
      decide_eq_true h
    refine ⟨?_, ?_, ?_⟩ <;>
      simp [handleRegisterPayment, markPayment, registerPayment, hc]
  · intro h
    have hc : decide (db.loan.total_weeks ≤ db.loan.weeks_paid + 1) = false :=
      decide_eq_false h
    refine ⟨?_, ?_, ?_⟩
    · simp [handleRegisterPayment, hc]
    · simp [markPayment, hc]
    · intro d hd
      simp [registerPayment, hc, hd]

/-- C3 witness: a final payment (next date null) and a non-final payment
on both kinds of path. -/
theorem claim_C3_witness :
    ((handleRegisterPayment ⟨⟨1, 100, 25, 4, 3, some 20, "active"⟩, [], ⟨0, 500⟩⟩
        30 true true true).1.loan.next_payment_date = none ∧
     (markPayment ⟨⟨1, 100, 25, 4, 3, some 20, "active"⟩, [], ⟨0, 500⟩⟩
        30 true true true).1.loan.next_payment_date = none ∧
     (registerPayment ⟨⟨1, 100, 25, 4, 3, some 20, "active"⟩, [], ⟨0, 500⟩⟩
        30 true true true).1.loan.next_payment_date = none) ∧
    ((handleRegisterPayment ⟨⟨1, 100, 25, 4, 0, some 20, "active"⟩, [], ⟨0, 500⟩⟩
        30 true true true).1.loan.next_payment_date = some (30 + 7) ∧
     (registerPayment ⟨⟨1, 100, 25, 4, 0, some 20, "active"⟩, [], ⟨0, 500⟩⟩
        30 true true true).1.loan.next_payment_date = some (20 + 7)) := by
  refine ⟨(claim_C3 ⟨⟨1, 100, 25, 4, 3, some 20, "active"⟩, [], ⟨0, 500⟩⟩ 30).1
      (by norm_num), ?_, ?_⟩
  · exact ((claim_C3 ⟨⟨1, 100, 25, 4, 0, some 20, "active"⟩, [], ⟨0, 500⟩⟩ 30).2
      (by norm_num)).1
  · exact ((claim_C3 ⟨⟨1, 100, 25, 4, 0, some 20, "active"⟩, [], ⟨0, 500⟩⟩ 30).2
      (by norm_num)).2.2 20 rfl

/-- C6 counterexample: in LoanPayments.registerPayment the pair is not
insert-then-update — with the first call succeeding and the second
failing, the loans row has changed while loan_payments is untouched, so
the persisting effect is the update, not the insert. -/
theorem claim_C6_counterexample :
    (registerPayment ⟨⟨1, 100, 25, 4, 0, some 0, "active"⟩, [], ⟨0, 500⟩⟩
        10 true false true).1.loan_payments = [] ∧
    (registerPayment ⟨⟨1, 100, 25, 4, 0, some 0, "active"⟩, [], ⟨0, 500⟩⟩
        10 true false true).1.loan
        ≠ (⟨1, 100, 25, 4, 0, some 0, "active"⟩ : LoanRow) ∧
    (registerPayment ⟨⟨1, 100, 25, 4, 0, some 0, "active"⟩, [], ⟨0, 500⟩⟩
        10 true false true).2 = false := by
  refine ⟨rfl, ?_, rfl⟩
  decide

/-- C6 (amended): payment registration is a pair of independent remote
calls with no transaction or rollback. In LoanDetails.handleRegisterPayment
and LoanList.markPayment the order is insert-then-update: when the update
fails, the inserted payment row persists, the loans row and client are
untouched, and an error is reported. In LoanPayments.registerPayment the
order is update-then-insert: when the insert fails, the loans update
persists, loan_payments and the client are untouched, and an error is
reported. A failure of the first call leaves everything unchanged. -/
theorem claim_C6 (db : PayDB) (today : ℤ) :
    ((handleRegisterPayment db today true false true).1.loan_payments
        = db.loan_payments ++
          [{ loan_id := db.loan.id, payment_amount := db.loan.weekly_payment,
             payment_date := today, week_number := db.loan.weeks_paid + 1 }] ∧
     (handleRegisterPayment db today true false true).1.loan = db.loan ∧
     (handleRegisterPayment db today true false true).1.client = db.client ∧
     (handleRegisterPayment db today true false true).2 = false) ∧
    ((markPayment db today true false true).1.loan_payments
        = db.loan_payments ++
          [{ loan_id := db.loan.id, payment_amount := db.loan.weekly_payment,
             payment_date := today, week_number := db.loan.weeks_paid + 1 }] ∧
     (markPayment db today true false true).1.loan = db.loan ∧
     (markPayment db today true false true).2 = false) ∧
    handleRegisterPayment db today false true true = (db, false) ∧
    markPayment db today false true true = (db, false) ∧
    ((registerPayment db today true false true).1.loan_payments
        = db.loan_payments ∧
     (registerPayment db today true false true).1.loan.weeks_paid
        = db.loan.weeks_paid + 1 ∧
     (registerPayment db today true false true).1.client = db.client ∧
     (registerPayment db today true false true).2 = false) ∧
    registerPayment db today false true true = (db, false) := by
  refine ⟨⟨?_, ?_, ?_, ?_⟩, ⟨?_, ?_, ?_⟩, ?_, ?_, ⟨?_, ?_, ?_, ?_⟩, ?_⟩ <;>
    simp [handleRegisterPayment, markPayment, registerPayment]

/-- Helper for the cleanup routine: on a payment list sorted by
payment_date, the retained payments have pairwise-distinct keys, form a
sublist of the input, and each input payment has a retained
representative of its key with a payment_date no later than its own. -/
theorem cleanup_spec : ∀ ps : List CleanupPayment,
    ps.Pairwise (fun a b => a.payment_date ≤ b.payment_date) →
    (cleanupDuplicatePayments ps).Pairwise
        (fun a b => cleanupKey a ≠ cleanupKey b) ∧
    (cleanupDuplicatePayments ps).Sublist ps ∧
    ∀ p ∈ ps, ∃ q ∈ cleanupDuplicatePayments ps,
      cleanupKey q = cleanupKey p ∧ q.payment_date ≤ p.payment_date
  | [], _ => by simp [cleanupDuplicatePayments]
  | p :: ps, hs => by
    have htail : ps.Pairwise (fun a b => a.payment_date ≤ b.payment_date) :=
      (List.pairwise_cons.mp hs).2
    have hfil : (ps.filter fun q => decide (cleanupKey q ≠ cleanupKey p)).Pairwise
        (fun a b => a.payment_date ≤ b.payment_date) := htail.filter _
    obtain ⟨ih1, ih2, ih3⟩ :=
      cleanup_spec (ps.filter fun q => decide (cleanupKey q ≠ cleanupKey p)) hfil
    rw [cleanupDuplicatePayments]
    refine ⟨?_, ?_, ?_⟩
    · rw [List.pairwise_cons]
      refine ⟨?_, ih1⟩
      intro b hb
      have hbmem : b ∈ ps.filter fun q => decide (cleanupKey q ≠ cleanupKey p) :=
        ih2.subset hb
      have hbk := (List.mem_filter.mp hbmem).2
      simp only [decide_eq_true_eq] at hbk
      exact hbk.symm
    · exact (ih2.trans (List.filter_sublist ps)).cons₂ p
    · intro x hx
      rcases List.mem_cons.mp hx with rfl | hx
      · exact ⟨x, List.mem_cons_self _ _, rfl, le_refl _⟩
      · by_cases hk : cleanupKey x = cleanupKey p
        · exact ⟨p, List.mem_cons_self _ _, hk.symm,
            (List.pairwise_cons.mp hs).1 x hx⟩
        · have hxf : x ∈ ps.filter fun q => decide (cleanupKey q ≠ cleanupKey p) :=
            List.mem_filter.mpr ⟨hx, by simpa using hk⟩
          obtain ⟨q, hq, hqk, hqd⟩ := ih3 x hxf
          exact ⟨q, List.mem_cons_of_mem _ hq, hqk, hqd⟩
termination_by ps => ps.length
decreasing_by
  simp only [List.length_cons]
  exact Nat.lt_succ_of_le (List.length_filter_le _ _)

/-- C7: after the cleanup routine runs on the payment list (fetched in
payment_date-ascending order), each (loan_id, week_number) group retains
at most one payment — the first in that order, whose payment_date is no
later than any other payment of its group — and the retained rows are
among the originals. -/
theorem claim_C7 (ps : List CleanupPayment)
    (hs : ps.Pairwise fun a b => a.payment_date ≤ b.payment_date) :
    (cleanupDuplicatePayments ps).Pairwise
        (fun a b => cleanupKey a ≠ cleanupKey b) ∧
    (cleanupDuplicatePayments ps).Sublist ps ∧
    ∀ p ∈ ps, ∃ q ∈ cleanupDuplicatePayments ps,
      cleanupKey q = cleanupKey p ∧ q.payment_date ≤ p.payment_date :=
  cleanup_spec ps hs

/-- C7 witness: a concrete date-sorted list with a duplicated week. -/
theorem claim_C7_witness :
    ([⟨1, 1, 1, 5⟩, ⟨2, 1, 1, 6⟩, ⟨3, 1, 2, 7⟩] : List CleanupPayment).Pairwise
        (fun a b => a.payment_date ≤ b.payment_date) ∧
    ((cleanupDuplicatePayments [⟨1, 1, 1, 5⟩, ⟨2, 1, 1, 6⟩, ⟨3, 1, 2, 7⟩]).Pairwise
        (fun a b => cleanupKey a ≠ cleanupKey b) ∧
     (cleanupDuplicatePayments
        [⟨1, 1, 1, 5⟩, ⟨2, 1, 1, 6⟩, ⟨3, 1, 2, 7⟩]).Sublist
        [⟨1, 1, 1, 5⟩, ⟨2, 1, 1, 6⟩, ⟨3, 1, 2, 7⟩] ∧
     ∀ p ∈ ([⟨1, 1, 1, 5⟩, ⟨2, 1, 1, 6⟩, ⟨3, 1, 2, 7⟩] : List CleanupPayment),
       ∃ q ∈ cleanupDuplicatePayments [⟨1, 1, 1, 5⟩, ⟨2, 1, 1, 6⟩, ⟨3, 1, 2, 7⟩],
         cleanupKey q = cleanupKey p ∧ q.payment_date ≤ p.payment_date) :=
  ⟨by decide, claim_C7 [⟨1, 1, 1, 5⟩, ⟨2, 1, 1, 6⟩, ⟨3, 1, 2, 7⟩] (by decide)⟩

/-- Keys of mapSet: every key is an old key or the inserted key. -/
theorem mem_keys_mapSet {m : List (WeekKey × CashPayment)} {k x : WeekKey}
    {p : CashPayment} (hx : x ∈ (mapSet m k p).map Prod.fst) :
    x ∈ m.map Prod.fst ∨ x = k := by
  induction m with
  | nil =>
    simp only [mapSet, List.map_cons, List.map_nil, List.mem_singleton] at hx
    exact Or.inr hx
  | cons f rest ih =>
    obtain ⟨k0, q⟩ := f
    by_cases hk : k0 = k
    · simp only [mapSet, if_pos hk, List.map_cons, List.mem_cons] at hx
      rcases hx with rfl | hx
      · exact Or.inl (List.mem_cons_self _ _)
      · exact Or.inl (List.mem_cons_of_mem _ hx)
    · simp only [mapSet, if_neg hk, List.map_cons, List.mem_cons] at hx
      rcases hx with rfl | hx
      · exact Or.inl (List.mem_cons_self _ _)
      · rcases ih hx with h | h
        · exact Or.inl (List.mem_cons_of_mem _ h)
        · exact Or.inr h

/-- mapSet preserves key distinctness. -/
theorem keys_nodup_mapSet {m : List (WeekKey × CashPayment)} {k : WeekKey}
    {p : CashPayment} (h : (m.map Prod.fst).Nodup) :
    ((mapSet m k p).map Prod.fst).Nodup := by
  induction m with
  | nil => simp [mapSet]
  | cons f rest ih =>
    obtain ⟨k0, q⟩ := f
    simp only [List.map_cons, List.nodup_cons] at h
    by_cases hk : k0 = k
    · simp only [mapSet, if_pos hk, List.map_cons, List.nodup_cons]
      exact ⟨h.1, h.2⟩
    · simp only [mapSet, if_neg hk, List.map_cons, List.nodup_cons]
      refine ⟨?_, ih h.2⟩
      intro hx
      rcases mem_keys_mapSet hx with hx | rfl
      · exact h.1 hx
      · exact hk rfl

/-- Members of mapSet under distinct keys: the inserted pair, or an old
pair at a different key. -/
theorem mem_mapSet {m : List (WeekKey × CashPayment)} {k : WeekKey}
    {p : CashPayment} {e : WeekKey × CashPayment}
    (hnd : (m.map Prod.fst).Nodup) (he : e ∈ mapSet m k p) :
    e = (k, p) ∨ (e ∈ m ∧ e.1 ≠ k) := by
  induction m with
  | nil =>
    simp only [mapSet, List.mem_singleton] at he
    exact Or.inl he
  | cons f rest ih =>
    obtain ⟨k0, q⟩ := f
    simp only [List.map_cons, List.nodup_cons] at hnd
    by_cases hk : k0 = k
    · subst hk
      simp only [mapSet, if_pos rfl] at he
      rcases List.mem_cons.mp he with rfl | he
      · exact Or.inl rfl
      · refine Or.inr ⟨List.mem_cons_of_mem _ he, ?_⟩
        intro h1
        apply hnd.1
        rw [← h1]
        exact List.mem_map_of_mem Prod.fst he
    · simp only [mapSet, if_neg hk] at he
      rcases List.mem_cons.mp he with rfl | he
      · exact Or.inr ⟨List.mem_cons_self _ _, hk⟩
      · rcases ih hnd.2 he with h | ⟨hm, hne⟩
        · exact Or.inl h
        · exact Or.inr ⟨List.mem_cons_of_mem _ hm, hne⟩

/-- mapGet returns a member of the list. -/
theorem mapGet_eq_some_mem {m : List (WeekKey × CashPayment)} {k : WeekKey}
    {q : CashPayment} (h : mapGet m k = some q) : (k, q) ∈ m := by
  induction m with
  | nil => simp [mapGet] at h
  | cons f rest ih =>
    obtain ⟨k0, q0⟩ := f
    by_cases hk : k0 = k
    · subst hk
      simp only [mapGet, if_true, eq_self_iff_true, Option.some.injEq] at h
      subst h
      exact List.mem_cons_self _ _
    · simp only [mapGet, if_neg hk] at h
      exact List.mem_cons_of_mem _ (ih h)

/-- Under distinct keys, membership determines mapGet. -/
theorem mem_mapGet {m : List (WeekKey × CashPayment)}
    (hnd : (m.map Prod.fst).Nodup) {k : WeekKey} {q : CashPayment}
    (h : (k, q) ∈ m) : mapGet m k = some q := by
  induction m with
  | nil => simp at h
  | cons f rest ih =>
    obtain ⟨k0, q0⟩ := f
    simp only [List.map_cons, List.nodup_cons] at hnd
    rcases List.mem_cons.mp h with heq | h
    · injection heq with hk hq
      subst hk
      subst hq
      simp [mapGet]
    · by_cases hk : k0 = k
      · subst hk
        exact absurd (List.mem_map_of_mem Prod.fst h) hnd.1
      · simp only [mapGet, if_neg hk]
        exact ih hnd.2 h

/-- mapGet after mapSet at the same key. -/
theorem mapGet_mapSet_self (m : List (WeekKey × CashPayment)) (k : WeekKey)
    (p : CashPayment) : mapGet (mapSet m k p) k = some p := by
  induction m with
  | nil => simp [mapSet, mapGet]
  | cons f rest ih =>
    obtain ⟨k0, q⟩ := f
    by_cases hk : k0 = k
    · simp [mapSet, mapGet, hk]
    · simp [mapSet, mapGet, hk, ih]

/-- mapGet after mapSet at a different key. -/
theorem mapGet_mapSet_ne (m : List (WeekKey × CashPayment)) {k x : WeekKey}
    (p : CashPayment) (hx : x ≠ k) :
    mapGet (mapSet m k p) x = mapGet m x := by
  induction m with
  | nil =>
    have hkx : ¬ k = x := fun h => hx h.symm
    simp [mapSet, mapGet, hkx]
  | cons f rest ih =>
    obtain ⟨k0, q⟩ := f
    by_cases hk : k0 = k
    · subst hk
      have hx0 : ¬ k0 = x := fun h => hx h.symm
      simp [mapSet, mapGet, hx0]
    · by_cases h0 : k0 = x
      · subst h0
        simp [mapSet, mapGet, hk]
      · simp [mapSet, mapGet, hk, h0, ih]

/-- upsertPayment when the key is absent: plain Map.set. -/
theorem upsertPayment_none {m : List (WeekKey × CashPayment)} {p : CashPayment}
    (hg : mapGet m (weekKey p) = none) :
    upsertPayment m p = mapSet m (weekKey p) p := by
  unfold upsertPayment
  rw [hg]

/-- upsertPayment when the new payment is strictly earlier: replace. -/
theorem upsertPayment_some_lt {m : List (WeekKey × CashPayment)}
    {p q : CashPayment} (hg : mapGet m (weekKey p) = some q)
    (hd : p.payment_date < q.payment_date) :
    upsertPayment m p = mapSet m (weekKey p) p := by
  unfold upsertPayment
  rw [hg]
  exact if_pos hd

/-- upsertPayment when the stored payment is not later: no change. -/
theorem upsertPayment_some_ge {m : List (WeekKey × CashPayment)}
    {p q : CashPayment} (hg : mapGet m (weekKey p) = some q)
    (hd : ¬ p.payment_date < q.payment_date) :
    upsertPayment m p = m := by
  unfold upsertPayment
  rw [hg]
  exact if_neg hd

/-- upsertPayment preserves key distinctness. -/
theorem keys_nodup_upsert {m : List (WeekKey × CashPayment)} {p : CashPayment}
    (h : (m.map Prod.fst).Nodup) :
    ((upsertPayment m p).map Prod.fst).Nodup := by
  cases hg : mapGet m (weekKey p) with
  | none =>
    rw [upsertPayment_none hg]
    exact keys_nodup_mapSet h
  | some q =>
    by_cases hd : p.payment_date < q.payment_date
    · rw [upsertPayment_some_lt hg hd]
      exact keys_nodup_mapSet h
    · rw [upsertPayment_some_ge hg hd]
      exact h

/-- The dedup Map of a list extended on the right is one upsert step. -/
theorem uniquePayments_append_singleton (ps : List CashPayment)
    (p : CashPayment) :
    uniquePayments (ps ++ [p]) = upsertPayment (uniquePayments ps) p := by
  simp [uniquePayments, List.foldl_append]

/-- Invariant of the dedup loop: the built Map has distinct keys, each
entry is a listed payment with its own key whose payment_date is minimal
among same-key payments, and the key of every listed payment is
present. -/
theorem uniquePayments_inv (ps : List CashPayment) :
    ((uniquePayments ps).map Prod.fst).Nodup ∧
    (∀ e ∈ uniquePayments ps, e.2 ∈ ps ∧ weekKey e.2 = e.1 ∧
        ∀ r ∈ ps, weekKey r = e.1 → e.2.payment_date ≤ r.payment_date) ∧
    (∀ r ∈ ps, (mapGet (uniquePayments ps) (weekKey r)).isSome) := by
  induction ps using List.reverseRecOn with
  | nil =>
    refine ⟨?_, ?_, ?_⟩ <;> simp [uniquePayments]
  | append_singleton ps p ih =>
    obtain ⟨ihnd, ihmin, ihcov⟩ := ih
    rw [uniquePayments_append_singleton]
    refine ⟨keys_nodup_upsert ihnd, ?_, ?_⟩
    · intro e he
      cases hg : mapGet (uniquePayments ps) (weekKey p) with
      | none =>
        rw [upsertPayment_none hg] at he
        rcases mem_mapSet ihnd he with rfl | ⟨hm, hne⟩
        · refine ⟨List.mem_append_right _ (List.mem_cons_self _ _), rfl, ?_⟩
          intro r hr hrk
          rcases List.mem_append.mp hr with hr | hr
          · have hc := ihcov r hr
            rw [hrk, hg] at hc
            simp at hc
          · have : r = p := by simpa using hr
            subst this
            exact le_refl _
        · obtain ⟨hmem, hkey, hmin⟩ := ihmin e hm
          refine ⟨List.mem_append_left _ hmem, hkey, ?_⟩
          intro r hr hrk
          rcases List.mem_append.mp hr with hr | hr
          · exact hmin r hr hrk
          · have : r = p := by simpa using hr
            subst this
            exact absurd hrk.symm hne
      | some q =>
        by_cases hd : p.payment_date < q.payment_date
        · rw [upsertPayment_some_lt hg hd] at he
          rcases mem_mapSet ihnd he with rfl | ⟨hm, hne⟩
          · refine ⟨List.mem_append_right _ (List.mem_cons_self _ _), rfl, ?_⟩
            intro r hr hrk
            rcases List.mem_append.mp hr with hr | hr
            · obtain ⟨_, _, hqmin⟩ := ihmin _ (mapGet_eq_some_mem hg)
              exact le_trans (le_of_lt hd) (hqmin r hr hrk)
            · have : r = p := by simpa using hr
              subst this
              exact le_refl _
          · obtain ⟨hmem, hkey, hmin⟩ := ihmin e hm
            refine ⟨List.mem_append_left _ hmem, hkey, ?_⟩
            intro r hr hrk
            rcases List.mem_append.mp hr with hr | hr
            · exact hmin r hr hrk
            · have : r = p := by simpa using hr
              subst this
              exact absurd hrk.symm hne
        · rw [upsertPayment_some_ge hg hd] at he
          obtain ⟨hmem, hkey, hmin⟩ := ihmin e he
          refine ⟨List.mem_append_left _ hmem, hkey, ?_⟩
          intro r hr hrk
          rcases List.mem_append.mp hr with hr | hr
          · exact hmin r hr hrk
          · have : r = p := by simpa using hr
            subst this
            have he2 : mapGet (uniquePayments ps) e.1 = some e.2 := by
              refine mem_mapGet ihnd ?_
              simpa using he
            rw [← hrk] at he2
            rw [hg] at he2
            injection he2 with hq
            rw [hq] at hd
            exact not_lt.mp hd
    · intro r hr
      rcases List.mem_append.mp hr with hr | hr
      · have hc := ihcov r hr
        cases hg : mapGet (uniquePayments ps) (weekKey p) with
        | none =>
          rw [upsertPayment_none hg]
          by_cases hk : weekKey r = weekKey p
          · rw [hk] at hc
            rw [hg] at hc
            simp at hc
          · rw [mapGet_mapSet_ne _ _ hk]
            exact hc
        | some q =>
          by_cases hd : p.payment_date < q.payment_date
          · rw [upsertPayment_some_lt hg hd]
            by_cases hk : weekKey r = weekKey p
            · rw [hk, mapGet_mapSet_self]
              simp
            · rw [mapGet_mapSet_ne _ _ hk]
              exact hc
          · rw [upsertPayment_some_ge hg hd]
            exact hc
      · have : r = p := by simpa using hr
        subst this
        cases hg : mapGet (uniquePayments ps) (weekKey r) with
        | none =>
          rw [upsertPayment_none hg, mapGet_mapSet_self]
          simp
        | some q =>
          by_cases hd : r.payment_date < q.payment_date
          · rw [upsertPayment_some_lt hg hd, mapGet_mapSet_self]
            simp
          · rw [upsertPayment_some_ge hg hd, hg]
            simp

/-- C4 counterexample: with one payment recorded for week 1 (amount 50,
day 10), inserting a duplicate payment for the same week with an earlier
date and a different amount (60, day 5) changes the deduplicated paid
total from 50 to 60, refuting the claim that inserting an additional
duplicate payment for an already-counted week leaves the computed
amount_paid unchanged. -/
theorem claim_C4_counterexample :
    (⟨2, 60, 5, 1⟩ : CashPayment).week_number
        ∈ ([⟨1, 50, 10, 1⟩] : List CashPayment).map (fun r => r.week_number) ∧
    totalPaid [⟨1, 50, 10, 1⟩] = 50 ∧
    totalPaid ([⟨1, 50, 10, 1⟩] ++ [⟨2, 60, 5, 1⟩]) = 60 ∧
    totalPaid ([⟨1, 50, 10, 1⟩] ++ [⟨2, 60, 5, 1⟩]) ≠ totalPaid [⟨1, 50, 10, 1⟩] := by
  refine ⟨?_, ?_, ?_, ?_⟩ <;>
    simp [totalPaid, uniquePayments, upsertPayment, mapGet, mapSet, weekKey]

/-- C4 (amended): the paid total sums, per week key, only the payment
with the earliest payment_date (first in list order on ties); appending
a duplicate payment whose payment_date is not earlier than the payment
retained for its week leaves the dedup Map, the paid total and the cash
balance unchanged; and the recomputed status, which depends only on the
set of week numbers, is unchanged by appending any payment whose
week_number is already counted. -/
theorem claim_C4 (ps : List CashPayment) (p : CashPayment) (W : ℕ)
    (A : ℚ) (pre post : List CashLoan) :
    (∀ e ∈ uniquePayments ps, e.2 ∈ ps ∧ weekKey e.2 = e.1 ∧
        ∀ r ∈ ps, weekKey r = e.1 → e.2.payment_date ≤ r.payment_date) ∧
    (∀ q, mapGet (uniquePayments ps) (weekKey p) = some q →
        q.payment_date ≤ p.payment_date →
        uniquePayments (ps ++ [p]) = uniquePayments ps ∧
        totalPaid (ps ++ [p]) = totalPaid ps ∧
        cashBalance (pre ++ { total_amount := A, pays := ps ++ [p] } :: post)
            = cashBalance (pre ++ { total_amount := A, pays := ps } :: post)) ∧
    (p.week_number ∈ ps.map (fun r => r.week_number) →
        loanRealStatus W (ps ++ [p]) = loanRealStatus W ps) := by
  refine ⟨(uniquePayments_inv ps).2.1, ?_, ?_⟩
  · intro q hq hd
    have heq : uniquePayments (ps ++ [p]) = uniquePayments ps := by
      rw [uniquePayments_append_singleton]
      exact upsertPayment_some_ge hq (not_lt.mpr hd)
    have htp : totalPaid (ps ++ [p]) = totalPaid ps := by
      unfold totalPaid
      rw [heq]
    refine ⟨heq, htp, ?_⟩
    unfold cashBalance
    simp [htp]
  · intro hw
    unfold loanRealStatus actualWeeksPaid
    have hset : ((ps ++ [p]).map fun r => r.week_number).toFinset
        = (ps.map fun r => r.week_number).toFinset := by
      simp only [List.map_append, List.toFinset_append, List.map_cons,
        List.map_nil, List.toFinset_cons, List.toFinset_nil]
      rw [insert_emptyc_eq]
      exact Finset.union_eq_left.mpr
        (Finset.singleton_subset_iff.mpr (List.mem_toFinset.mpr hw))
    rw [hset]

/-- C4 witness: appending a later-dated duplicate of week 1 changes
neither the paid total nor the recomputed status. -/
theorem claim_C4_witness :
    mapGet (uniquePayments [⟨1, 50, 10, 1⟩]) (weekKey ⟨2, 50, 12, 1⟩)
        = some ⟨1, 50, 10, 1⟩ ∧
    (⟨1, 50, 10, 1⟩ : CashPayment).payment_date
        ≤ (⟨2, 50, 12, 1⟩ : CashPayment).payment_date ∧
    (⟨2, 50, 12, 1⟩ : CashPayment).week_number
        ∈ ([⟨1, 50, 10, 1⟩] : List CashPayment).map (fun r => r.week_number) ∧
    totalPaid ([⟨1, 50, 10, 1⟩] ++ [⟨2, 50, 12, 1⟩]) = totalPaid [⟨1, 50, 10, 1⟩] ∧
    loanRealStatus 4 ([⟨1, 50, 10, 1⟩] ++ [⟨2, 50, 12, 1⟩])
        = loanRealStatus 4 [⟨1, 50, 10, 1⟩] := by
  refine ⟨by decide, by decide, by decide, ?_, ?_⟩
  · exact ((claim_C4 [⟨1, 50, 10, 1⟩] ⟨2, 50, 12, 1⟩ 4 135 [] []).2.1
      ⟨1, 50, 10, 1⟩ (by decide) (by decide)).2.1
  · exact (claim_C4 [⟨1, 50, 10, 1⟩] ⟨2, 50, 12, 1⟩ 4 135 [] []).2.2 (by decide)

/-- filterDigits distributes over append. -/
theorem filterDigits_append (a b : List Char) :
    filterDigits (a ++ b) = filterDigits a ++ filterDigits b :=
  List.filter_append ..

/-- filterDigits fixes a list of digits. -/
theorem filterDigits_of_digits {l : List Char} (h : ∀ c ∈ l, c.isDigit) :
    filterDigits l = l :=
  List.filter_eq_self.mpr h

/-- Decomposition of the first 11 characters along the CPF mask cuts. -/
theorem take_eleven_decomp (l : List Char) :
    l.take 11 = l.take 3 ++ ((l.drop 3).take 3 ++
      ((l.drop 6).take 3 ++ (l.drop 9).take 2)) := by
  rw [show (11 : ℕ) = 3 + 8 from rfl, List.take_add]
  rw [show (8 : ℕ) = 3 + 5 from rfl, List.take_add]
  rw [show (5 : ℕ) = 3 + 2 from rfl, List.take_add]
  simp [List.drop_drop]

/-- The digits of a formatted CPF are the first 11 digits that were
formatted: the mask only inserts the two non-digit separators. -/
theorem filterDigits_fmtCPF {cpf : List Char} (h : ∀ c ∈ cpf, c.isDigit) :
    filterDigits (fmtCPF cpf) = cpf.take 11 := by
  have hsub : ∀ l : List Char, l ⊆ cpf → filterDigits l = l := fun l hs =>
    filterDigits_of_digits fun c hc => h c (hs hc)
  have hdot : filterDigits [Char.ofNat 46] = [] := by decide
  have hdash : filterDigits [Char.ofNat 45] = [] := by decide
  unfold fmtCPF
  by_cases h3 : cpf.length ≤ 3
  · rw [if_pos h3, hsub cpf fun a ha => ha,
      List.take_of_length_le (le_trans h3 (by norm_num))]
  · rw [if_neg h3]
    by_cases h6 : cpf.length ≤ 6
    · rw [if_pos h6, filterDigits_append, filterDigits_append, hdot,
        hsub _ (List.take_subset ..), hsub _ (List.drop_subset ..),
        List.append_nil, List.take_append_drop,
        List.take_of_length_le (le_trans h6 (by norm_num))]
    · rw [if_neg h6]
      by_cases h9 : cpf.length ≤ 9
      · rw [if_pos h9, filterDigits_append, filterDigits_append,
          filterDigits_append, filterDigits_append, hdot,
          hsub _ (List.take_subset ..),
          hsub _ (List.Subset.trans (List.take_subset ..) (List.drop_subset ..)),
          hsub _ (List.drop_subset ..), List.append_nil, List.append_nil]
        have h2 : (cpf.drop 3).drop 3 = cpf.drop 6 := by
          rw [List.drop_drop]
        rw [List.append_assoc, ← h2, List.take_append_drop,
          List.take_append_drop,
          List.take_of_length_le (le_trans h9 (by norm_num))]
      · rw [if_neg h9, filterDigits_append, filterDigits_append,
          filterDigits_append, filterDigits_append, filterDigits_append,
          filterDigits_append, hdot, hdash,
          hsub _ (List.take_subset ..),
          hsub _ (List.Subset.trans (List.take_subset ..) (List.drop_subset ..)),
          hsub _ (List.Subset.trans (List.take_subset ..) (List.drop_subset ..)),
          hsub _ (List.Subset.trans (List.take_subset ..) (List.drop_subset ..)),
          List.append_nil, List.append_nil, List.append_nil,
          take_eleven_decomp, ← List.append_assoc, ← List.append_assoc]

/-- The mask only looks at the first 11 digits. -/
theorem fmtCPF_take_eleven (cpf : List Char) :
    fmtCPF (cpf.take 11) = fmtCPF cpf := by
  by_cases h9 : cpf.length ≤ 9
  · rw [List.take_of_length_le (le_trans h9 (by norm_num))]
  · have hlen : (cpf.take 11).length = min 11 cpf.length := List.length_take ..
    have h10 : 10 ≤ cpf.length := by omega
    have hl10 : 10 ≤ (cpf.take 11).length := by
      rw [hlen]
      omega
    have c1 : ¬ (cpf.take 11).length ≤ 3 := by omega
    have c2 : ¬ (cpf.take 11).length ≤ 6 := by omega
    have c3 : ¬ (cpf.take 11).length ≤ 9 := by omega
    have d1 : ¬ cpf.length ≤ 3 := by omega
    have d2 : ¬ cpf.length ≤ 6 := by omega
    unfold fmtCPF
    rw [if_neg c1, if_neg c2, if_neg c3, if_neg d1, if_neg d2, if_neg h9]
    rw [List.take_take, List.drop_take, List.take_take, List.drop_take,
      List.take_take, List.drop_take, List.take_take]
    norm_num

/-- C10: formatCPF is idempotent, and its output depends only on the
first 11 digit characters of the input (non-digits are ignored). -/
theorem claim_C10 (v : String) :
    formatCPF (formatCPF v) = formatCPF v ∧
    ∀ w : String,
      (filterDigits v.toList).take 11 = (filterDigits w.toList).take 11 →
      formatCPF v = formatCPF w := by
  have hdig : ∀ u : String, ∀ c ∈ filterDigits u.toList, c.isDigit :=
    fun u c hc => List.of_mem_filter hc
  constructor
  · show String.mk (fmtCPF (filterDigits
      (String.mk (fmtCPF (filterDigits v.toList))).toList)) = formatCPF v
    rw [show (String.mk (fmtCPF (filterDigits v.toList))).toList
        = fmtCPF (filterDigits v.toList) from rfl,
      filterDigits_fmtCPF (hdig v), fmtCPF_take_eleven]
    rfl
  · intro w hw
    show String.mk (fmtCPF (filterDigits v.toList))
        = String.mk (fmtCPF (filterDigits w.toList))
    rw [← fmtCPF_take_eleven (filterDigits v.toList), hw, fmtCPF_take_eleven]

/-- C10 witness: a concrete CPF string with separators and excess
digits. -/
theorem claim_C10_witness :
    formatCPF (formatCPF (String.mk [Char.ofNat 49, Char.ofNat 50, Char.ofNat 51,
        Char.ofNat 52, Char.ofNat 53, Char.ofNat 54, Char.ofNat 55, Char.ofNat 56,
        Char.ofNat 57, Char.ofNat 48, Char.ofNat 49, Char.ofNat 50]))
      = formatCPF (String.mk [Char.ofNat 49, Char.ofNat 50, Char.ofNat 51,
        Char.ofNat 52, Char.ofNat 53, Char.ofNat 54, Char.ofNat 55, Char.ofNat 56,
        Char.ofNat 57, Char.ofNat 48, Char.ofNat 49, Char.ofNat 50]) ∧
    formatCPF (String.mk [Char.ofNat 49, Char.ofNat 50, Char.ofNat 51,
        Char.ofNat 52, Char.ofNat 53, Char.ofNat 54, Char.ofNat 55, Char.ofNat 56,
        Char.ofNat 57, Char.ofNat 48, Char.ofNat 49, Char.ofNat 50])
      = formatCPF (String.mk [Char.ofNat 49, Char.ofNat 46, Char.ofNat 50,
        Char.ofNat 51, Char.ofNat 52, Char.ofNat 53, Char.ofNat 54, Char.ofNat 55,
        Char.ofNat 56, Char.ofNat 57, Char.ofNat 48, Char.ofNat 49, Char.ofNat 50,
        Char.ofNat 51]) := by
  constructor
  · exact (claim_C10 (String.mk [Char.ofNat 49, Char.ofNat 50, Char.ofNat 51,
      Char.ofNat 52, Char.ofNat 53, Char.ofNat 54, Char.ofNat 55, Char.ofNat 56,
      Char.ofNat 57, Char.ofNat 48, Char.ofNat 49, Char.ofNat 50])).1
  · exact (claim_C10 (String.mk [Char.ofNat 49, Char.ofNat 50, Char.ofNat 51,
      Char.ofNat 52, Char.ofNat 53, Char.ofNat 54, Char.ofNat 55, Char.ofNat 56,
      Char.ofNat 57, Char.ofNat 48, Char.ofNat 49, Char.ofNat 50])).2
      (String.mk [Char.ofNat 49, Char.ofNat 46, Char.ofNat 50,
        Char.ofNat 51, Char.ofNat 52, Char.ofNat 53, Char.ofNat 54, Char.ofNat 55,
        Char.ofNat 56, Char.ofNat 57, Char.ofNat 48, Char.ofNat 49, Char.ofNat 50,
        Char.ofNat 51]) (by decide)

end Fincerta
